import Mathlib

/-!
Shallow embedding of the notes backend repository layer
(`src/notes_backend/src/api/repository.py`, `schemas.py`, `db.py`).

The SQLite `notes` table is modelled as a `Store`: a list of rows plus the
AUTOINCREMENT sequence counter (`seq`); an INSERT assigns id `seq + 1` and
appends the row.  Timestamps produced by `utc_now_iso` are opaque ISO-8601
strings; the repository functions receive the current `now` value as an
explicit argument since `utc_now_iso()` is an effect of the clock.
SQLite compares TEXT columns byte-wise, which on the ASCII ISO-8601
timestamps coincides with the lexicographic `String` order used here.
-/

namespace NotesApp

/-- A row of the `notes` table, as read back by `_row_to_note` into
`NoteRead` (id, title, content, created_at, updated_at). -/
structure Note where
  id : Nat
  title : String
  content : String
  created_at : String
  updated_at : String
deriving DecidableEq, Repr

/-- Payload of `NoteCreate` (`schemas.py`): both fields required. -/
structure NoteCreate where
  title : String
  content : String
deriving DecidableEq, Repr

/-- Payload of `NoteUpdate` (`schemas.py`): both fields optional,
`None` meaning "leave unchanged". -/
structure NoteUpdate where
  title : Option String
  content : Option String
deriving DecidableEq, Repr

/-- The persistent state: the rows of the `notes` table together with the
AUTOINCREMENT sequence value (the largest id ever assigned). -/
structure Store where
  rows : List Note
  seq : Nat
deriving DecidableEq, Repr

/-- Store well-formedness: every stored id was assigned by the
AUTOINCREMENT sequence, hence is at most `seq`.  This is the property the
SQLite engine maintains for `INTEGER PRIMARY KEY AUTOINCREMENT`. -/
def WF (s : Store) : Prop :=
  ∀ n ∈ s.rows, n.id ≤ s.seq

/-- `get_note`: `SELECT ... FROM notes WHERE id = ?`, returning the matching
row or `None`. -/
def get_note (s : Store) (note_id : Nat) : Option Note :=
  s.rows.find? (fun n => n.id == note_id)

/-- The `ORDER BY updated_at DESC, id DESC` comparison of `list_notes`:
`a` may come before `b` when `a.updated_at` is larger, or equal with
`a.id` at least `b.id`. -/
def noteAfter (a b : Note) : Prop :=
  b.updated_at < a.updated_at ∨ (b.updated_at = a.updated_at ∧ b.id ≤ a.id)

instance : DecidableRel noteAfter := fun a b => by
  unfold noteAfter; infer_instance

instance : IsTotal Note noteAfter :=
  ⟨by
    intro a b
    unfold noteAfter
    rcases lt_trichotomy a.updated_at b.updated_at with h | h | h
    · exact Or.inr (Or.inl h)
    · rcases Nat.le_total b.id a.id with h2 | h2
      · exact Or.inl (Or.inr ⟨h.symm, h2⟩)
      · exact Or.inr (Or.inr ⟨h, h2⟩)
    · exact Or.inl (Or.inl h)⟩

instance : IsTrans Note noteAfter :=
  ⟨by
    intro a b c hab hbc
    unfold noteAfter at hab hbc ⊢
    rcases hab with h1 | ⟨h1, h1'⟩ <;> rcases hbc with h2 | ⟨h2, h2'⟩
    · exact Or.inl (h2.trans h1)
    · exact Or.inl (h2.trans_lt h1)
    · exact Or.inl (h2.trans_eq h1)
    · exact Or.inr ⟨h2.trans h1, h2'.trans h1'⟩⟩

/-- `list_notes`: `SELECT ... FROM notes ORDER BY updated_at DESC, id DESC`. -/
def list_notes (s : Store) : List Note :=
  List.insertionSort noteAfter s.rows

/-- `create_note`: one `now = utc_now_iso()`, INSERT with
`created_at = updated_at = now`, then re-read via `get_note lastrowid`
(the Python `assert created is not None` makes the result `Option`). -/
def create_note (s : Store) (payload : NoteCreate) (now : String) :
    Option Note × Store :=
  let note_id := s.seq + 1
  let row : Note :=
    { id := note_id, title := payload.title, content := payload.content,
      created_at := now, updated_at := now }
  let s' : Store := { rows := s.rows ++ [row], seq := note_id }
  (get_note s' note_id, s')

/-- `update_note`: read the existing note; if absent return `None` leaving
the store untouched; otherwise fields not supplied keep their existing
value, `UPDATE notes SET title, content, updated_at WHERE id = ?`
rewrites every matching row, and the result is the re-read record. -/
def update_note (s : Store) (note_id : Nat) (payload : NoteUpdate)
    (now : String) : Option Note × Store :=
  match get_note s note_id with
  | none => (none, s)
  | some existing =>
    let new_title := payload.title.getD existing.title
    let new_content := payload.content.getD existing.content
    let s' : Store :=
      { s with rows := s.rows.map (fun n =>
          if n.id == note_id then
            { n with title := new_title, content := new_content,
                     updated_at := now }
          else n) }
    (get_note s' note_id, s')

/-- `delete_note`: `DELETE FROM notes WHERE id = ?`, returning
`cur.rowcount > 0`, i.e. whether any row was removed. -/
def delete_note (s : Store) (note_id : Nat) : Bool × Store :=
  let remaining := s.rows.filter (fun n => n.id != note_id)
  (decide (remaining.length < s.rows.length), { s with rows := remaining })

/-- `get_note` with the store threaded through: the Python function only
executes a `SELECT` statement (no INSERT/UPDATE/DELETE, no commit), so the
table state passes through unchanged. -/
def get_note_run (s : Store) (note_id : Nat) : Option Note × Store :=
  (get_note s note_id, s)

/-- `list_notes` with the store threaded through: only a `SELECT`
statement is executed, so the table state passes through unchanged. -/
def list_notes_run (s : Store) : List Note × Store :=
  (list_notes s, s)

/-- Pydantic validation of the create payload (`NoteBase` in
`schemas.py`): `title` is required with `min_length=1, max_length=200`
measured on the raw string (the model configures no whitespace
stripping), `content` is required with `min_length=0`.  `none` models an
absent field, which pydantic rejects for a required field. -/
def validNoteCreatePayload (t? : Option String) (c? : Option String) :
    Bool :=
  match t?, c? with
  | some t, some _ => 1 ≤ t.length && t.length ≤ 200
  | _, _ => false

/-- Number of characters of `t` after removing leading and trailing
whitespace. -/
def trimmedLen (t : String) : Nat :=
  ((t.data.dropWhile Char.isWhitespace).reverse.dropWhile
    Char.isWhitespace).length

/-- Modelled from the spec: "title required, trimmed length 1–200;
content required, may be empty string" — the acceptance condition as the
spec words it, for comparison against `validNoteCreatePayload`. -/
def specValidCreatePayload (t? : Option String) (c? : Option String) :
    Bool :=
  match t?, c? with
  | some t, some _ => 1 ≤ trimmedLen t && trimmedLen t ≤ 200
  | _, _ => false

/-- A repository mutation, as invoked by the router. -/
inductive Op where
  | create (payload : NoteCreate)
  | update (note_id : Nat) (payload : NoteUpdate)
  | delete (note_id : Nat)
deriving DecidableEq, Repr

/-- Apply one mutation at clock value `now` and keep the resulting
store. -/
def applyOp (s : Store) (op : Op) (now : String) : Store :=
  match op with
  | Op.create payload => (create_note s payload now).2
  | Op.update note_id payload => (update_note s note_id payload now).2
  | Op.delete note_id => (delete_note s note_id).2

/-- Run a sequence of mutations, each paired with the `utc_now_iso()`
value observed when it executed. -/
def runOps (s : Store) (steps : List (Op × String)) : Store :=
  steps.foldl (fun acc step => applyOp acc step.1 step.2) s

/-- Every stored note has `created_at ≤ updated_at` and no timestamp
later than `t` (the invariant carried along a trace whose clock values
never decrease). -/
def TimeBounded (s : Store) (t : String) : Prop :=
  ∀ n ∈ s.rows, n.created_at ≤ n.updated_at ∧ n.updated_at ≤ t

/-! ### Helper lemmas -/

/-- Deleting with a predicate on the id removes fewer rows than the whole
table exactly when some row carries that id. -/
lemma length_filter_ne_lt_iff (l : List Note) (note_id : Nat) :
    (l.filter (fun n => n.id != note_id)).length < l.length ↔
      ∃ n ∈ l, n.id = note_id := by
  constructor
  · intro h
    by_contra hno
    push_neg at hno
    have hall : ∀ n ∈ l, (fun n => n.id != note_id) n = true := by
      intro n hn
      simpa using hno n hn
    rw [List.filter_length_eq_length.mpr hall] at h
    exact Nat.lt_irrefl _ h
  · rintro ⟨n, hn, hid⟩
    rcases Nat.lt_or_ge (l.filter (fun n => n.id != note_id)).length
      l.length with h | h
    · exact h
    · exfalso
      have heq : (l.filter (fun n => n.id != note_id)).length = l.length :=
        Nat.le_antisymm (List.length_filter_le _ _) h
      have hbne := List.filter_length_eq_length.mp heq n hn
      simp [hid] at hbne

/-- `find?` by id over a row-wise transformation that preserves ids
finds the transformed version of the row it found before. -/
lemma find?_map_id_preserving (rows : List Note) (note_id : Nat)
    (f : Note → Note) (hf : ∀ n, (f n).id = n.id) :
    (rows.map f).find? (fun n => n.id == note_id) =
      (rows.find? (fun n => n.id == note_id)).map f := by
  rw [List.find?_map]
  have hfun : ((fun n : Note => n.id == note_id) ∘ f) =
      (fun n : Note => n.id == note_id) := by
    funext n
    simp [Function.comp, hf]
  rw [hfun]

/-- Components of `update_note` on an existing id: the store keeps its
sequence counter, its rows are rewritten pointwise by the UPDATE
statement, and the result is the re-read of the new rows. -/
lemma update_note_components (s : Store) (note_id : Nat)
    (payload : NoteUpdate) (now : String) (existing : Note)
    (hget : get_note s note_id = some existing) :
    (update_note s note_id payload now).2.rows =
      s.rows.map (fun n =>
        if n.id == note_id then
          { n with title := payload.title.getD existing.title,
                   content := payload.content.getD existing.content,
                   updated_at := now }
        else n) ∧
    (update_note s note_id payload now).2.seq = s.seq ∧
    (update_note s note_id payload now).1 =
      (s.rows.map (fun n =>
        if n.id == note_id then
          { n with title := payload.title.getD existing.title,
                   content := payload.content.getD existing.content,
                   updated_at := now }
        else n)).find? (fun n => n.id == note_id) := by
  refine ⟨?_, ?_, ?_⟩
  all_goals unfold update_note
  all_goals rw [hget]
  all_goals rfl

/-! ### Claim theorems -/

/-- Claim C3: `list_notes` returns every stored note (a permutation of
the table rows), ordered by `updated_at` descending with ties broken by
`id` descending, and on an empty store it returns the empty list rather
than an error. -/
theorem list_notes_ordered (s : Store) :
    List.Perm (list_notes s) s.rows ∧
      List.Sorted noteAfter (list_notes s) ∧
      ∀ k : Nat, list_notes { rows := [], seq := k } = [] :=
  ⟨List.perm_insertionSort noteAfter s.rows,
   List.sorted_insertionSort noteAfter s.rows, fun _ => rfl⟩

/-- Claim C4: `delete_note` returns `true` exactly when a note with the
given id existed, and after the call `get_note` on that id returns
`none`. -/
theorem delete_note_returns_existed (s : Store) (note_id : Nat) :
    ((delete_note s note_id).1 = true ↔ (get_note s note_id).isSome = true) ∧
      get_note (delete_note s note_id).2 note_id = none := by
  constructor
  · simp only [delete_note, decide_eq_true_eq, get_note, List.find?_isSome]
    rw [length_filter_ne_lt_iff]
    constructor
    · rintro ⟨n, hn, hid⟩
      exact ⟨n, hn, by simp [hid]⟩
    · rintro ⟨n, hn, hid⟩
      exact ⟨n, hn, by simpa using hid⟩
  · simp only [delete_note, get_note]
    rw [List.find?_eq_none]
    intro x hx
    have hbne := (List.mem_filter.mp hx).2
    simpa using hbne

/-- Claim C5: updating a nonexistent id returns `none` and leaves the
store untouched (no row is created, nothing is raised). -/
theorem update_note_missing_id (s : Store) (note_id : Nat)
    (payload : NoteUpdate) (now : String)
    (h : get_note s note_id = none) :
    update_note s note_id payload now = (none, s) := by
  simp [update_note, h]

theorem update_note_missing_id_witness :
    get_note { rows := [], seq := 0 } 5 = none ∧
      update_note { rows := [], seq := 0 } 5
          { title := some "t", content := none } "T" =
        (none, { rows := [], seq := 0 }) :=
  ⟨rfl, update_note_missing_id { rows := [], seq := 0 } 5
    { title := some "t", content := none } "T" rfl⟩

/-- Claim C2: `create_note` followed by `get_note` on the returned id
yields the very record `create_note` returned, equal in all fields. -/
theorem create_get_roundtrip (s : Store) (payload : NoteCreate)
    (now : String) (n : Note)
    (hc : (create_note s payload now).1 = some n) :
    get_note (create_note s payload now).2 n.id = some n := by
  simp only [create_note, get_note] at hc ⊢
  have hid : n.id = s.seq + 1 := by simpa using List.find?_some hc
  rw [hid]
  exact hc

theorem create_get_roundtrip_witness :
    (create_note { rows := [], seq := 0 } { title := "A", content := "x" }
        "T").1 =
      some { id := 1, title := "A", content := "x", created_at := "T",
             updated_at := "T" } ∧
    get_note (create_note { rows := [], seq := 0 }
        { title := "A", content := "x" } "T").2
        ({ id := 1, title := "A", content := "x", created_at := "T",
           updated_at := "T" } : Note).id =
      some { id := 1, title := "A", content := "x", created_at := "T",
             updated_at := "T" } :=
  ⟨rfl, create_get_roundtrip { rows := [], seq := 0 }
    { title := "A", content := "x" } "T"
    { id := 1, title := "A", content := "x", created_at := "T",
      updated_at := "T" } rfl⟩

/-- Claim C6: the note returned by `create_note` carries the payload's
title and content, and `created_at = updated_at = now`, the single clock
value taken at creation time. -/
theorem create_note_returns_now_fields (s : Store) (payload : NoteCreate)
    (now : String) (hwf : WF s) :
    (create_note s payload now).1 =
      some { id := s.seq + 1, title := payload.title,
             content := payload.content, created_at := now,
             updated_at := now } := by
  simp only [create_note, get_note]
  rw [List.find?_append]
  have h1 : s.rows.find? (fun n => n.id == s.seq + 1) = none := by
    rw [List.find?_eq_none]
    intro x hx
    have hle := hwf x hx
    simp only [beq_iff_eq]
    omega
  rw [h1]
  simp [List.find?]

theorem create_note_returns_now_fields_witness :
    WF { rows := [], seq := 0 } ∧
      (create_note { rows := [], seq := 0 } { title := "A", content := "x" }
          "T").1 =
        some { id := 1, title := "A", content := "x", created_at := "T",
               updated_at := "T" } :=
  ⟨fun n hn => absurd hn (List.not_mem_nil n),
   create_note_returns_now_fields { rows := [], seq := 0 }
     { title := "A", content := "x" } "T"
     (fun n hn => absurd hn (List.not_mem_nil n))⟩

/-- Claim C1: on an existing id, `update_note` keeps any field not
supplied (`none` means "leave unchanged"), sets `updated_at` to the
single `now` value regardless of which fields were supplied, and the
returned record is exactly what a re-read of the store yields. -/
theorem update_note_partial_semantics (s : Store) (note_id : Nat)
    (payload : NoteUpdate) (now : String) (existing : Note)
    (hget : get_note s note_id = some existing) :
    (update_note s note_id payload now).1 =
      some { existing with
             title := payload.title.getD existing.title,
             content := payload.content.getD existing.content,
             updated_at := now } ∧
    get_note (update_note s note_id payload now).2 note_id =
      (update_note s note_id payload now).1 := by
  have hget' : s.rows.find? (fun n => n.id == note_id) = some existing := hget
  have hid : existing.id = note_id := by
    simpa using List.find?_some hget'
  have hf : ∀ n : Note, ((fun n : Note =>
      if n.id == note_id then
        { n with title := payload.title.getD existing.title,
                 content := payload.content.getD existing.content,
                 updated_at := now }
      else n) n).id = n.id := by
    intro n
    by_cases h : (n.id == note_id) = true <;> simp [h]
  obtain ⟨hrows, hseq, hfst⟩ :=
    update_note_components s note_id payload now existing hget
  constructor
  · rw [hfst, find?_map_id_preserving _ _ _ hf, hget']
    simp [hid]
  · simp only [get_note]
    rw [hrows, hfst]

theorem update_note_partial_semantics_witness :
    get_note ⟨[⟨1, "A", "x", "T0", "T0"⟩], 1⟩ 1 =
      some ⟨1, "A", "x", "T0", "T0"⟩ ∧
    ((update_note ⟨[⟨1, "A", "x", "T0", "T0"⟩], 1⟩ 1
          ⟨none, some "y"⟩ "T1").1 = some ⟨1, "A", "y", "T0", "T1"⟩ ∧
      get_note (update_note ⟨[⟨1, "A", "x", "T0", "T0"⟩], 1⟩ 1
          ⟨none, some "y"⟩ "T1").2 1 =
        (update_note ⟨[⟨1, "A", "x", "T0", "T0"⟩], 1⟩ 1
          ⟨none, some "y"⟩ "T1").1) :=
  ⟨rfl, update_note_partial_semantics ⟨[⟨1, "A", "x", "T0", "T0"⟩], 1⟩ 1
    ⟨none, some "y"⟩ "T1" ⟨1, "A", "x", "T0", "T0"⟩ rfl⟩

/-- Claim C7: on an existing id, `update_note` keeps the note's `id` and
`created_at`, keeps the sequence counter, changes no row count, and
leaves every note other than the given id entirely unchanged. -/
theorem update_note_frame (s : Store) (note_id : Nat)
    (payload : NoteUpdate) (now : String) (existing : Note)
    (hget : get_note s note_id = some existing) :
    (update_note s note_id payload now).1.map Note.id =
        some existing.id ∧
    (update_note s note_id payload now).1.map Note.created_at =
        some existing.created_at ∧
    (update_note s note_id payload now).2.seq = s.seq ∧
    (update_note s note_id payload now).2.rows.length =
        s.rows.length ∧
    (update_note s note_id payload now).2.rows.filter
        (fun m => m.id != note_id) =
      s.rows.filter (fun m => m.id != note_id) := by
  have hget' : s.rows.find? (fun n => n.id == note_id) = some existing := hget
  have hid : existing.id = note_id := by
    simpa using List.find?_some hget'
  have hf : ∀ n : Note, ((fun n : Note =>
      if n.id == note_id then
        { n with title := payload.title.getD existing.title,
                 content := payload.content.getD existing.content,
                 updated_at := now }
      else n) n).id = n.id := by
    intro n
    by_cases h : (n.id == note_id) = true <;> simp [h]
  obtain ⟨hrows, hseq, hfst⟩ :=
    update_note_components s note_id payload now existing hget
  refine ⟨?_, ?_, hseq, ?_, ?_⟩
  · rw [hfst, find?_map_id_preserving _ _ _ hf, hget']
    simp [hid]
  · rw [hfst, find?_map_id_preserving _ _ _ hf, hget']
    simp [hid]
  · rw [hrows]
    exact List.length_map _ _
  · rw [hrows, List.filter_map]
    have hfun : ((fun m : Note => m.id != note_id) ∘ (fun n : Note =>
        if n.id == note_id then
          { n with title := payload.title.getD existing.title,
                   content := payload.content.getD existing.content,
                   updated_at := now }
        else n)) = (fun m : Note => m.id != note_id) := by
      funext n
      simp only [Function.comp]
      rw [hf n]
    rw [hfun]
    calc (s.rows.filter (fun m => m.id != note_id)).map (fun n : Note =>
          if n.id == note_id then
            { n with title := payload.title.getD existing.title,
                     content := payload.content.getD existing.content,
                     updated_at := now }
          else n)
        = (s.rows.filter (fun m => m.id != note_id)).map (fun a => a) := by
          apply List.map_congr_left
          intro m hm
          have h2 := (List.mem_filter.mp hm).2
          simp only [bne_iff_ne, ne_eq] at h2
          simp [h2]
      _ = s.rows.filter (fun m => m.id != note_id) := List.map_id' _

theorem update_note_frame_witness :
    get_note ⟨[⟨1, "A", "x", "T0", "T0"⟩, ⟨2, "B", "z", "T0", "T0"⟩], 2⟩ 1 =
      some ⟨1, "A", "x", "T0", "T0"⟩ ∧
    (update_note ⟨[⟨1, "A", "x", "T0", "T0"⟩, ⟨2, "B", "z", "T0", "T0"⟩], 2⟩
        1 ⟨some "C", none⟩ "T1").2.rows.filter (fun m => m.id != 1) =
      (⟨[⟨1, "A", "x", "T0", "T0"⟩, ⟨2, "B", "z", "T0", "T0"⟩], 2⟩ :
        Store).rows.filter (fun m => m.id != 1) :=
  ⟨rfl, (update_note_frame
    ⟨[⟨1, "A", "x", "T0", "T0"⟩, ⟨2, "B", "z", "T0", "T0"⟩], 2⟩ 1
    ⟨some "C", none⟩ "T1" ⟨1, "A", "x", "T0", "T0"⟩ rfl).2.2.2.2⟩

/-- Claim C10: the two read operations thread the store through
unchanged — `get_note` and `list_notes` execute only `SELECT`
statements, so the table state after either call equals the state
before it. -/
theorem read_operations_preserve_store (s : Store) (note_id : Nat) :
    (get_note_run s note_id).2 = s ∧ (list_notes_run s).2 = s :=
  ⟨rfl, rfl⟩

/-- `TimeBounded` weakens along the clock. -/
lemma timeBounded_mono {s : Store} {t t' : String}
    (h : TimeBounded s t) (ht : t ≤ t') : TimeBounded s t' :=
  fun n hn => ⟨(h n hn).1, le_trans (h n hn).2 ht⟩

/-- `create_note` preserves the timestamp invariant when the clock has
not gone backwards. -/
lemma timeBounded_create {s : Store} {t now : String}
    (payload : NoteCreate) (h : TimeBounded s t) (ht : t ≤ now) :
    TimeBounded (create_note s payload now).2 now := by
  intro n hn
  have hn' : n ∈ s.rows ++
      [(⟨s.seq + 1, payload.title, payload.content, now, now⟩ : Note)] := hn
  rcases List.mem_append.mp hn' with hm | hm
  · exact ⟨(h n hm).1, le_trans (h n hm).2 ht⟩
  · rcases List.mem_singleton.mp hm with rfl
    exact ⟨le_refl now, le_refl now⟩

/-- `update_note` preserves the timestamp invariant when the clock has
not gone backwards. -/
lemma timeBounded_update {s : Store} {t now : String} (note_id : Nat)
    (payload : NoteUpdate) (h : TimeBounded s t) (ht : t ≤ now) :
    TimeBounded (update_note s note_id payload now).2 now := by
  rcases hcase : get_note s note_id with _ | existing
  · have heq : (update_note s note_id payload now).2 = s := by
      unfold update_note
      rw [hcase]
    rw [heq]
    exact timeBounded_mono h ht
  · obtain ⟨hrows, hseq, hfst⟩ :=
      update_note_components s note_id payload now existing hcase
    intro n hn
    rw [hrows] at hn
    rcases List.mem_map.mp hn with ⟨m, hm, rfl⟩
    by_cases hc : (m.id == note_id) = true
    · simp only [hc, if_true]
      exact ⟨le_trans (h m hm).1 (le_trans (h m hm).2 ht), le_refl now⟩
    · simp only [hc, if_false]
      exact ⟨(h m hm).1, le_trans (h m hm).2 ht⟩

/-- `delete_note` preserves the timestamp invariant. -/
lemma timeBounded_delete {s : Store} {t : String} (note_id : Nat)
    (h : TimeBounded s t) : TimeBounded (delete_note s note_id).2 t := by
  intro n hn
  have hn' : n ∈ s.rows.filter (fun m => m.id != note_id) := hn
  exact h n (List.mem_filter.mp hn').1

/-- Any mutation at clock `now` preserves the invariant when the clock
has not gone backwards. -/
lemma timeBounded_applyOp {s : Store} {t now : String} (op : Op)
    (h : TimeBounded s t) (ht : t ≤ now) :
    TimeBounded (applyOp s op now) now := by
  cases op with
  | create payload => exact timeBounded_create payload h ht
  | update note_id payload => exact timeBounded_update note_id payload h ht
  | delete note_id =>
    exact timeBounded_mono (timeBounded_delete note_id h) ht

/-- Running a trace whose clock values never decrease keeps every stored
note at `created_at ≤ updated_at`. -/
lemma timeBounded_runOps (steps : List (Op × String)) :
    ∀ (s : Store) (t : String), TimeBounded s t →
      List.Chain' (· ≤ ·) (t :: steps.map Prod.snd) →
      ∀ n ∈ (runOps s steps).rows, n.created_at ≤ n.updated_at := by
  induction steps with
  | nil =>
    intro s t h _ n hn
    exact (h n hn).1
  | cons step rest ih =>
    intro s t h hchain n hn
    rw [List.map_cons, List.chain'_cons] at hchain
    have h' : TimeBounded (applyOp s step.1 step.2) step.2 :=
      timeBounded_applyOp step.1 h hchain.1
    exact ih (applyOp s step.1 step.2) step.2 h' hchain.2 n hn

/-- Claim C9: starting from the empty table, any sequence of create,
update and delete operations whose `now()` values never decrease leaves
every stored note with `updated_at ≥ created_at`. -/
theorem reachable_notes_updated_ge_created (steps : List (Op × String))
    (hmono : List.Chain' (· ≤ ·) (steps.map Prod.snd)) :
    ∀ n ∈ (runOps { rows := [], seq := 0 } steps).rows,
      n.created_at ≤ n.updated_at := by
  cases steps with
  | nil =>
    intro n hn
    exact absurd hn (List.not_mem_nil n)
  | cons step rest =>
    apply timeBounded_runOps (step :: rest) { rows := [], seq := 0 } step.2
    · intro n hn
      exact absurd hn (List.not_mem_nil n)
    · rw [List.map_cons, List.chain'_cons]
      rw [List.map_cons] at hmono
      exact ⟨le_refl step.2, hmono⟩

theorem reachable_notes_updated_ge_created_witness :
    List.Chain' (· ≤ ·)
        (([(Op.create ⟨"A", "x"⟩, "T"),
           (Op.update 1 ⟨none, some "y"⟩, "T")]).map Prod.snd) ∧
      (⟨1, "A", "y", "T", "T"⟩ : Note).created_at ≤
        (⟨1, "A", "y", "T", "T"⟩ : Note).updated_at :=
  ⟨by simp, reachable_notes_updated_ge_created
    [(Op.create ⟨"A", "x"⟩, "T"), (Op.update 1 ⟨none, some "y"⟩, "T")]
    (by simp) ⟨1, "A", "y", "T", "T"⟩ (by decide)⟩

/-- Claim C8 counterexample: the payload with title `" "` (one space)
and empty content is accepted by the code's validation, yet its title's
trimmed length is 0, outside 1–200 — so acceptance is not equivalent to
the trimmed-length condition the claim states. -/
theorem create_validation_not_trimmed :
    validNoteCreatePayload (some " ") (some "") = true ∧
      specValidCreatePayload (some " ") (some "") = false := by
  constructor <;> rfl

/-- Claim C8 (amended): a create payload is accepted by validation
exactly when title and content are both present and the title's raw
(untrimmed) character count is between 1 and 200; content may be the
empty string. -/
theorem create_validation_iff (t? : Option String) (c? : Option String) :
    validNoteCreatePayload t? c? = true ↔
      ∃ t, t? = some t ∧ 1 ≤ t.length ∧ t.length ≤ 200 ∧
        ∃ c, c? = some c := by
  cases t? with
  | none => simp [validNoteCreatePayload]
  | some t =>
    cases c? with
    | none => simp [validNoteCreatePayload]
    | some c =>
      simp [validNoteCreatePayload]

end NotesApp
